import Mathlib

/-!
Verification development for the multi-user todo web application
(src/app/app.py).  The Python routes are shallowly embedded: pure list
manipulation is translated to Lean functions, the per-user todo files are a
map from file path to optional file content, and the users.json dictionary
is an insertion-ordered association list.  Password hashing is an external
library (werkzeug); theorems take the hash and check functions as
parameters, and witnesses instantiate them with a concrete model.
-/

/-- A stored user record, as kept in users.json under a string user id. -/
structure UserRecord where
  username : String
  password_hash : String
  created_at : String
deriving DecidableEq

/-- The users.json mapping from user id to record, modelled as an
insertion-ordered association list, the way a Python dict iterates. -/
abbrev UserStore := List (String × UserRecord)

/-- Python dict assignment users[k] = v: replaces the value in place when the
key already exists, otherwise appends the new binding at the end. -/
def dictInsert (d : UserStore) (k : String) (v : UserRecord) : UserStore :=
  if d.any (fun pr => pr.1 == k) then
    d.map (fun pr => if pr.1 == k then (k, v) else pr)
  else d ++ [(k, v)]

/-- A todo item as stored in todos/user_id.json.  The completed_at key is
absent until the item is completed, hence an Option. -/
structure TodoItem where
  id : Int
  text : String
  completed : Bool
  created_at : String
  completed_at : Option String
deriving DecidableEq

/-- Python str.strip(): drop leading and trailing whitespace.  Structural
recursion over the character list, so that concrete strings compute. -/
def strip (s : String) : String :=
  ⟨((s.data.dropWhile Char.isWhitespace).reverse.dropWhile
      Char.isWhitespace).reverse⟩

/-- max([todo.id for todo in todos], default=0) from add_todo. -/
def maxId (todos : List TodoItem) : Int :=
  match todos.map TodoItem.id with
  | [] => 0
  | x :: xs => xs.foldl max x

/-- The list-level effect of the add_todo route on the todos of the current
user: strip the submitted text; when it is empty nothing happens, otherwise
one new item is appended with id = max existing id (default 0) + 1,
completed = false and created_at = now. -/
def add_todo (todos : List TodoItem) (rawText now : String) : List TodoItem :=
  let todo_text := strip rawText
  if todo_text = "" then todos
  else todos ++ [⟨maxId todos + 1, todo_text, false, now, none⟩]

/-- The list-level effect of complete_todo: the loop marks the first item
carrying the given id (completed = true, completed_at = now) and breaks. -/
def complete_todo (todos : List TodoItem) (todo_id : Int) (now : String) :
    List TodoItem :=
  match todos with
  | [] => []
  | t :: ts =>
    if t.id = todo_id then ⟨t.id, t.text, true, t.created_at, some now⟩ :: ts
    else t :: complete_todo ts todo_id now

/-- The list-level effect of delete_todo: keep every item whose id differs
from the requested one. -/
def delete_todo (todos : List TodoItem) (todo_id : Int) : List TodoItem :=
  todos.filter (fun t => t.id != todo_id)

/-- The todos directory: the content of each file path, none when the file
does not exist. -/
abbrev TodoFS := String → Option (List TodoItem)

/-- The file path used by load_todos and save_todos for a given user id,
os.path.join of TODOS_DIR with the f-string user_id.json. -/
def todoPath (uid : String) : String := "todos/user_" ++ uid ++ ".json"

/-- load_todos: read the file of the current user, empty list when absent. -/
def load_todos (fs : TodoFS) (uid : String) : List TodoItem :=
  (fs (todoPath uid)).getD []

/-- save_todos: overwrite the file of the current user with the given list. -/
def save_todos (fs : TodoFS) (uid : String) (todos : List TodoItem) : TodoFS :=
  fun p => if p = todoPath uid then some todos else fs p

/-- The add_todo route at the file-system level: when the stripped text is
empty the route neither loads nor saves; otherwise load, append, save. -/
def add_todo_route (fs : TodoFS) (uid rawText now : String) : TodoFS :=
  if strip rawText = "" then fs
  else save_todos fs uid (add_todo (load_todos fs uid) rawText now)

/-- The complete_todo route at the file-system level: load, mark, save. -/
def complete_todo_route (fs : TodoFS) (uid : String) (todo_id : Int)
    (now : String) : TodoFS :=
  save_todos fs uid (complete_todo (load_todos fs uid) todo_id now)

/-- The delete_todo route at the file-system level: load, filter, save. -/
def delete_todo_route (fs : TodoFS) (uid : String) (todo_id : Int) : TodoFS :=
  save_todos fs uid (delete_todo (load_todos fs uid) todo_id)

/-- The index route: the list shown to a user is the content of that user
file. -/
def list_todos (fs : TodoFS) (uid : String) : List TodoItem :=
  load_todos fs uid

/-- Outcome of a POST handler: a redirect or a rendered error message. -/
inductive FormResult where
  | redirect (target : String)
  | error (msg : String)
deriving DecidableEq

/-- The POST branch of the login route.  The submitted username is stripped;
empty fields short-circuit; the loop finds the first store entry whose
username equals the submitted one exactly; Python truthiness makes an empty
user id fail the final test. -/
def login (chk : String → String → Bool) (users : UserStore)
    (rawUsername password : String) : FormResult :=
  let username := strip rawUsername
  if username = "" ∨ password = "" then .error "Please fill in all fields"
  else
    match users.find? (fun pr => pr.2.username == username) with
    | some (uid, r) =>
      if uid != "" && chk r.password_hash password then .redirect "index"
      else .error "Invalid username or password"
    | none => .error "Invalid username or password"

/-- The POST branch of the register route, parametrised by the password hash
function.  Returns the user store after the request together with the error
message, if any; the store is written back only on the success path. -/
def register (hashF : String → String) (users : UserStore)
    (rawUsername password confirm_password now : String) :
    UserStore × Option String :=
  let username := strip rawUsername
  if username = "" ∨ password = "" ∨ confirm_password = "" then
    (users, some "Please fill in all fields")
  else if username.length < 3 then
    (users, some "Username must be at least 3 characters")
  else if password.length < 6 then
    (users, some "Password must be at least 6 characters")
  else if password ≠ confirm_password then
    (users, some "Passwords do not match")
  else if users.any (fun pr => pr.2.username.toLower == username.toLower) then
    (users, some "Username already exists")
  else
    let user_id := Nat.repr (users.length + 1)
    (dictInsert users user_id ⟨username, hashF password, now⟩, none)

/-- The JSON body produced by the health route. -/
structure HealthResponse where
  status : String
  timestamp : String
  version : String
  authenticated_users : Nat
deriving DecidableEq

/-- The health route: HTTP status code (jsonify answers 200) and body. -/
def health (users : UserStore) (now : String) : Nat × HealthResponse :=
  (200, ⟨"healthy", now, "2.0.0", users.length⟩)

/-- The routes exposed by the application. -/
inductive Route where
  | index
  | addTodo
  | completeTodo
  | deleteTodo
  | loginPage
  | registerPage
  | logoutPage
  | healthCheck
deriving DecidableEq

/-- Which routes carry the login_required decorator in app.py. -/
def loginRequired : Route → Bool
  | .index => true
  | .addTodo => true
  | .completeTodo => true
  | .deleteTodo => true
  | .logoutPage => true
  | .loginPage => false
  | .registerPage => false
  | .healthCheck => false

/-- A concrete stand-in for werkzeug generate_password_hash, used to
instantiate the hash parameter in witnesses. -/
def demoHash (p : String) : String := "pbkdf2:" ++ p

/-- The decimal digit list of n, most significant digit first: the unfolded
form of Nat.toDigits 10, used to reason about the user ids str(len + 1). -/
def decDigits (n : Nat) : List Char :=
  if h : n < 10 then [Nat.digitChar n]
  else decDigits (n / 10) ++ [Nat.digitChar (n % 10)]
termination_by n
decreasing_by
  exact Nat.div_lt_self (by omega) (by omega)

theorem toDigitsCore_eq_decDigits (fuel n : Nat) (ds : List Char)
    (h : n < fuel) : Nat.toDigitsCore 10 fuel n ds = decDigits n ++ ds := by
  induction fuel generalizing n ds with
  | zero => omega
  | succ fuel ih =>
    by_cases h10 : n < 10
    · have hz : n / 10 = 0 := by omega
      rw [Nat.toDigitsCore, decDigits]
      simp [hz, dif_pos h10, Nat.mod_eq_of_lt h10]
    · have hge : 10 ≤ n := by omega
      have hnz : ¬ n / 10 = 0 := by omega
      rw [Nat.toDigitsCore]
      simp only [hnz, if_false]
      rw [ih (n / 10) _ (by omega)]
      conv_rhs => rw [decDigits]
      rw [dif_neg h10]
      simp

theorem repr_eq_decDigits (n : Nat) : Nat.repr n = (decDigits n).asString := by
  unfold Nat.repr Nat.toDigits
  rw [toDigitsCore_eq_decDigits (n + 1) n [] (by omega), List.append_nil]

theorem decDigits_ne_nil (n : Nat) : decDigits n ≠ [] := by
  rw [decDigits]
  by_cases h : n < 10
  · simp [dif_pos h]
  · rw [dif_neg h]
    simp

theorem repr_ne_empty (n : Nat) : Nat.repr n ≠ "" := by
  rw [repr_eq_decDigits]
  intro hc
  exact decDigits_ne_nil n (congrArg String.data hc)

/-- Numeric value of a decimal digit character. -/
def digitVal (c : Char) : Nat := c.toNat - 48

/-- Numeric value of a most-significant-first decimal digit list. -/
def decVal (l : List Char) : Nat := l.foldl (fun a c => a * 10 + digitVal c) 0

theorem digitVal_digitChar (d : Nat) (h : d < 10) :
    digitVal (Nat.digitChar d) = d := by
  interval_cases d <;> decide

theorem foldl_decDigits (n : Nat) : ∀ a : Nat,
    (decDigits n).foldl (fun a c => a * 10 + digitVal c) a =
      a * 10 ^ (decDigits n).length + n := by
  induction n using Nat.strong_induction_on with
  | _ n ih =>
    intro a
    by_cases h : n < 10
    · rw [decDigits, dif_pos h]
      simp [digitVal_digitChar n h]
    · rw [decDigits, dif_neg h]
      rw [List.foldl_append, ih (n / 10) (Nat.div_lt_self (by omega) (by omega)) a]
      simp only [List.foldl_cons, List.foldl_nil, List.length_append,
        List.length_cons, List.length_nil]
      rw [digitVal_digitChar (n % 10) (by omega)]
      have hpow : a * 10 ^ ((decDigits (n / 10)).length + (0 + 1)) =
          a * 10 ^ (decDigits (n / 10)).length * 10 := by
        rw [Nat.zero_add, Nat.pow_succ, Nat.mul_assoc]
      rw [hpow]
      omega

theorem decVal_decDigits (n : Nat) : decVal (decDigits n) = n := by
  rw [decVal, foldl_decDigits n 0]
  simp

theorem repr_injective {m n : Nat} (h : Nat.repr m = Nat.repr n) : m = n := by
  rw [repr_eq_decDigits, repr_eq_decDigits] at h
  have hd : decDigits m = decDigits n := congrArg String.data h
  have := congrArg decVal hd
  rwa [decVal_decDigits, decVal_decDigits] at this

theorem le_foldl_max (l : List Int) (a : Int) : a ≤ l.foldl max a := by
  induction l generalizing a with
  | nil => exact le_refl a
  | cons x xs ih => exact le_trans (le_max_left a x) (ih (max a x))

theorem mem_le_foldl_max (l : List Int) (a x : Int) (hx : x ∈ l) :
    x ≤ l.foldl max a := by
  induction l generalizing a with
  | nil => cases hx
  | cons y ys ih =>
    rw [List.foldl_cons]
    rcases List.mem_cons.mp hx with rfl | hmem
    · exact le_trans (le_max_right a x) (le_foldl_max ys (max a x))
    · exact ih (max a y) hmem

theorem foldl_max_mem (l : List Int) (a : Int) :
    l.foldl max a = a ∨ l.foldl max a ∈ l := by
  induction l generalizing a with
  | nil => exact Or.inl rfl
  | cons y ys ih =>
    rcases ih (max a y) with h | h
    · rcases max_choice a y with h1 | h1
      · exact Or.inl (by rw [List.foldl_cons, h, h1])
      · refine Or.inr ?_
        rw [List.foldl_cons, h, h1]
        exact List.mem_cons_self y ys
    · exact Or.inr (List.mem_cons_of_mem y (by rw [List.foldl_cons]; exact h))

theorem maxId_ge (l : List TodoItem) (t : TodoItem) (ht : t ∈ l) :
    t.id ≤ maxId l := by
  cases l with
  | nil => cases ht
  | cons x xs =>
    rw [maxId]
    simp only [List.map_cons]
    rcases List.mem_cons.mp ht with rfl | hmem
    · exact le_foldl_max (xs.map TodoItem.id) t.id
    · exact mem_le_foldl_max (xs.map TodoItem.id) x.id t.id
        (List.mem_map_of_mem TodoItem.id hmem)

theorem maxId_mem (l : List TodoItem) (h : l ≠ []) :
    maxId l ∈ l.map TodoItem.id := by
  cases l with
  | nil => exact absurd rfl h
  | cons x xs =>
    rw [maxId]
    simp only [List.map_cons]
    rcases foldl_max_mem (xs.map TodoItem.id) x.id with h1 | h1
    · rw [h1]; exact List.mem_cons_self _ _
    · exact List.mem_cons_of_mem _ h1

/-- A concrete stand-in for werkzeug check_password_hash, matching
demoHash. -/
def demoCheck (h p : String) : Bool := h == demoHash p

theorem todoPath_injective {u v : String} (h : todoPath u = todoPath v) :
    u = v := by
  have hd := congrArg String.data h
  simp only [todoPath, String.data_append, List.append_assoc] at hd
  exact String.ext (List.append_cancel_right (List.append_cancel_left hd))

theorem save_todos_other (fs : TodoFS) (u v : String) (todos : List TodoItem)
    (h : v ≠ u) : save_todos fs u todos (todoPath v) = fs (todoPath v) := by
  unfold save_todos
  rw [if_neg (fun hc => h (todoPath_injective hc))]

/-- Claim C1: per-user isolation.  A todo operation performed by user u touches
only the file of u: the file of any other user v keeps its exact content,
and the list shown to v is unchanged. -/
theorem per_user_isolation (fs : TodoFS) (u v rawText now : String)
    (todo_id : Int) (huv : u ≠ v) :
    add_todo_route fs u rawText now (todoPath v) = fs (todoPath v) ∧
    complete_todo_route fs u todo_id now (todoPath v) = fs (todoPath v) ∧
    delete_todo_route fs u todo_id (todoPath v) = fs (todoPath v) ∧
    list_todos (add_todo_route fs u rawText now) v = list_todos fs v ∧
    list_todos (complete_todo_route fs u todo_id now) v = list_todos fs v ∧
    list_todos (delete_todo_route fs u todo_id) v = list_todos fs v := by
  have hvu : v ≠ u := fun hc => huv hc.symm
  have hadd : add_todo_route fs u rawText now (todoPath v) = fs (todoPath v) := by
    unfold add_todo_route
    by_cases he : strip rawText = ""
    · rw [if_pos he]
    · rw [if_neg he]
      exact save_todos_other fs u v _ hvu
  have hcomp : complete_todo_route fs u todo_id now (todoPath v) = fs (todoPath v) :=
    save_todos_other fs u v _ hvu
  have hdel : delete_todo_route fs u todo_id (todoPath v) = fs (todoPath v) :=
    save_todos_other fs u v _ hvu
  refine ⟨hadd, hcomp, hdel, ?_, ?_, ?_⟩ <;>
    simp only [list_todos, load_todos, hadd, hcomp, hdel]

theorem per_user_isolation_witness :
    list_todos (add_todo_route (fun _ => none) "1" "Buy milk" "t0") "2" =
      list_todos (fun _ => none : TodoFS) "2" :=
  (per_user_isolation (fun _ => none) "1" "2" "Buy milk" "t0" 1
    (by decide)).2.2.2.1

/-- Claim C4: add with blank text is a no-op; add with non-blank text appends
exactly one item carrying id = maxId + 1, the trimmed text, completed =
false and created_at = now, the previous items untouched; and maxId really
is the maximum of the existing ids with default 0. -/
theorem add_todo_spec (l : List TodoItem) (rawText now : String) :
    (strip rawText = "" → add_todo l rawText now = l) ∧
    (strip rawText ≠ "" →
      add_todo l rawText now =
        l ++ [⟨maxId l + 1, strip rawText, false, now, none⟩]) ∧
    (∀ t ∈ l, t.id ≤ maxId l) ∧
    (l = [] → maxId l = 0) ∧
    (l ≠ [] → maxId l ∈ l.map TodoItem.id) := by
  refine ⟨?_, ?_, ?_, ?_, ?_⟩
  · intro he
    unfold add_todo
    rw [if_pos he]
  · intro hne
    unfold add_todo
    rw [if_neg hne]
  · exact fun t ht => maxId_ge l t ht
  · intro he
    subst he
    rfl
  · exact maxId_mem l

theorem add_todo_spec_witness :
    add_todo [] "   " "t0" = [] ∧
    add_todo [⟨2, "a", false, "t0", none⟩] " Buy milk " "t1" =
      [⟨2, "a", false, "t0", none⟩] ++
        [⟨maxId [⟨2, "a", false, "t0", none⟩] + 1, strip " Buy milk ",
          false, "t1", none⟩] :=
  ⟨(add_todo_spec [] "   " "t0").1 (by decide),
   (add_todo_spec [⟨2, "a", false, "t0", none⟩] " Buy milk " "t1").2.1
     (by decide)⟩

theorem nodup_split (pre post : List TodoItem) (t : TodoItem)
    (h : ((pre ++ t :: post).map TodoItem.id).Nodup) :
    (∀ x ∈ pre, x.id ≠ t.id) ∧ (∀ x ∈ post, x.id ≠ t.id) := by
  rw [List.map_append, List.map_cons, List.nodup_middle] at h
  have hnotmem := (List.nodup_cons.mp h).1
  rw [List.mem_append] at hnotmem
  push_neg at hnotmem
  constructor
  · intro x hx hc
    apply hnotmem.1
    rw [← hc]
    exact List.mem_map_of_mem TodoItem.id hx
  · intro x hx hc
    apply hnotmem.2
    rw [← hc]
    exact List.mem_map_of_mem TodoItem.id hx

theorem filter_ne_eq_self (l : List TodoItem) (i : Int)
    (h : ∀ x ∈ l, x.id ≠ i) : l.filter (fun t => t.id != i) = l := by
  rw [List.filter_eq_self]
  intro a ha
  exact bne_iff_ne.mpr (h a ha)

/-- Claim C5: when the list holds an item with the requested id and ids are unique
(the TodoItem data-model invariant), delete_todo removes exactly that item,
the others keeping their relative order, and the length drops by one; when
no item has the id, delete_todo is the identity. -/
theorem delete_todo_spec (l : List TodoItem) (todo_id : Int)
    (hnodup : (l.map TodoItem.id).Nodup) :
    ((∃ t ∈ l, t.id = todo_id) →
      ∃ pre t post, l = pre ++ t :: post ∧ t.id = todo_id ∧
        delete_todo l todo_id = pre ++ post ∧
        (delete_todo l todo_id).length + 1 = l.length) ∧
    ((∀ t ∈ l, t.id ≠ todo_id) → delete_todo l todo_id = l) := by
  constructor
  · rintro ⟨t, ht, hid⟩
    subst hid
    obtain ⟨pre, post, rfl⟩ := List.append_of_mem ht
    obtain ⟨hpre, hpost⟩ := nodup_split pre post t hnodup
    have hfilter : delete_todo (pre ++ t :: post) t.id = pre ++ post := by
      unfold delete_todo
      rw [List.filter_append, List.filter_cons]
      have hf : (t.id != t.id) = false := by simp
      rw [hf]
      simp only [Bool.false_eq_true, if_false]
      rw [filter_ne_eq_self pre t.id hpre, filter_ne_eq_self post t.id hpost]
    refine ⟨pre, t, post, rfl, rfl, hfilter, ?_⟩
    rw [hfilter]
    simp only [List.length_append, List.length_cons]
    omega
  · intro h
    unfold delete_todo
    exact filter_ne_eq_self l todo_id h

theorem delete_todo_spec_witness :
    delete_todo [⟨1, "a", false, "t0", none⟩, ⟨2, "b", false, "t0", none⟩] 3 =
      [⟨1, "a", false, "t0", none⟩, ⟨2, "b", false, "t0", none⟩] :=
  (delete_todo_spec
    [⟨1, "a", false, "t0", none⟩, ⟨2, "b", false, "t0", none⟩] 3
    (by decide)).2 (by decide)

theorem complete_todo_noop (l : List TodoItem) (todo_id : Int) (now : String)
    (h : ∀ t ∈ l, t.id ≠ todo_id) : complete_todo l todo_id now = l := by
  induction l with
  | nil => rfl
  | cons x xs ih =>
    rw [complete_todo, if_neg (h x (List.mem_cons_self x xs))]
    rw [ih (fun t ht => h t (List.mem_cons_of_mem x ht))]

theorem complete_todo_append (pre rest : List TodoItem) (todo_id : Int)
    (now : String) (h : ∀ x ∈ pre, x.id ≠ todo_id) :
    complete_todo (pre ++ rest) todo_id now =
      pre ++ complete_todo rest todo_id now := by
  induction pre with
  | nil => simp
  | cons x xs ih =>
    rw [List.cons_append, complete_todo,
      if_neg (h x (List.mem_cons_self x xs)),
      ih (fun y hy => h y (List.mem_cons_of_mem x hy)), List.cons_append]

/-- Claim C6: when the list holds an item with the requested id and ids are unique
(the TodoItem data-model invariant), complete_todo marks exactly that item
completed with completed_at = now, leaving every other item and the order
untouched; when no item has the id the list is unchanged. -/
theorem complete_todo_spec (l : List TodoItem) (todo_id : Int) (now : String)
    (hnodup : (l.map TodoItem.id).Nodup) :
    ((∃ t ∈ l, t.id = todo_id) →
      ∃ pre t post, l = pre ++ t :: post ∧ t.id = todo_id ∧
        complete_todo l todo_id now =
          pre ++ ⟨t.id, t.text, true, t.created_at, some now⟩ :: post) ∧
    ((∀ t ∈ l, t.id ≠ todo_id) → complete_todo l todo_id now = l) := by
  constructor
  · rintro ⟨t, ht, hid⟩
    subst hid
    obtain ⟨pre, post, rfl⟩ := List.append_of_mem ht
    obtain ⟨hpre, hpost⟩ := nodup_split pre post t hnodup
    refine ⟨pre, t, post, rfl, rfl, ?_⟩
    rw [complete_todo_append pre (t :: post) t.id now hpre]
    rw [complete_todo, if_pos rfl]
  · exact complete_todo_noop l todo_id now

theorem complete_todo_spec_witness :
    complete_todo [⟨1, "a", false, "t0", none⟩] 2 "t1" =
      [⟨1, "a", false, "t0", none⟩] :=
  (complete_todo_spec [⟨1, "a", false, "t0", none⟩] 2 "t1"
    (by decide)).2 (by decide)

theorem complete_todo_map_id (l : List TodoItem) (todo_id : Int)
    (now : String) :
    (complete_todo l todo_id now).map TodoItem.id = l.map TodoItem.id := by
  induction l with
  | nil => rfl
  | cons x xs ih =>
    rw [complete_todo]
    by_cases h : x.id = todo_id
    · rw [if_pos h]
      simp
    · rw [if_neg h]
      simp [ih]

/-- The todo lists reachable from the empty list by the three mutating
routes of the application. -/
inductive ReachableTodos : List TodoItem → Prop where
  | empty : ReachableTodos []
  | add (l : List TodoItem) (h : ReachableTodos l) (rawText now : String) :
      ReachableTodos (add_todo l rawText now)
  | complete (l : List TodoItem) (h : ReachableTodos l) (todo_id : Int)
      (now : String) : ReachableTodos (complete_todo l todo_id now)
  | delete (l : List TodoItem) (h : ReachableTodos l) (todo_id : Int) :
      ReachableTodos (delete_todo l todo_id)

/-- Claim C7: on every reachable todo list the ids are pairwise distinct, and a
non-blank add appends a single fresh item whose id is strictly greater than
every id already present. -/
theorem todo_ids_invariant (l : List TodoItem) (h : ReachableTodos l) :
    (l.map TodoItem.id).Nodup ∧
    ∀ rawText now, strip rawText ≠ "" →
      ∃ rest, add_todo l rawText now = l ++ [rest] ∧
        ∀ t ∈ l, t.id < rest.id := by
  have hfresh : ∀ (m : List TodoItem) (rawText now : String),
      strip rawText ≠ "" →
      ∃ rest, add_todo m rawText now = m ++ [rest] ∧
        ∀ t ∈ m, t.id < rest.id := by
    intro m rawText now hne
    refine ⟨⟨maxId m + 1, strip rawText, false, now, none⟩, ?_, ?_⟩
    · unfold add_todo
      rw [if_neg hne]
    · intro t ht
      have := maxId_ge m t ht
      show t.id < maxId m + 1
      omega
  refine ⟨?_, hfresh l⟩
  induction h with
  | empty => simp
  | add m hm rawText now ih =>
    by_cases he : strip rawText = ""
    · unfold add_todo
      rw [if_pos he]
      exact ih
    · obtain ⟨rest, heq, hgt⟩ := hfresh m rawText now he
      rw [heq, List.map_append, List.map_cons, List.map_nil, List.nodup_append]
      refine ⟨ih, List.nodup_singleton _, ?_⟩
      intro a ha hb
      obtain ⟨t, ht, rfl⟩ := List.mem_map.mp ha
      have hlt := hgt t ht
      have : t.id = rest.id := by
        rcases List.mem_singleton.mp hb with h1
        exact h1
      omega
  | complete m hm todo_id now ih =>
    rw [complete_todo_map_id]
    exact ih
  | delete m hm todo_id ih =>
    exact List.Nodup.sublist
      (List.Sublist.map TodoItem.id (List.filter_sublist m)) ih

theorem todo_ids_invariant_witness :
    ((add_todo [] "Buy milk" "t1").map TodoItem.id).Nodup :=
  (todo_ids_invariant (add_todo [] "Buy milk" "t1")
    (ReachableTodos.add [] ReachableTodos.empty "Buy milk" "t1")).1

/-- Claim C9: the health route carries no login_required decorator and, whatever
the user store holds, answers HTTP 200 with status healthy, the current
timestamp, the version string and the count of registered users. -/
theorem health_spec (users : UserStore) (now : String) :
    loginRequired Route.healthCheck = false ∧
    (health users now).1 = 200 ∧
    (health users now).2.status = "healthy" ∧
    (health users now).2.timestamp = now ∧
    (health users now).2.version = "2.0.0" ∧
    (health users now).2.authenticated_users = users.length :=
  ⟨rfl, rfl, rfl, rfl, rfl, rfl⟩

/-- Claim C2: with non-degenerate submitted fields and a store whose user ids are
non-empty and whose usernames are pairwise distinct (both hold for stores
built by register), login redirects exactly when some stored record carries
the submitted username verbatim and the password verifies against its hash;
every mismatch produces the single invalid-credentials error message. -/
theorem login_spec (chk : String → String → Bool) (users : UserStore)
    (username password : String)
    (hids : ∀ pr ∈ users, pr.1 ≠ "")
    (hnames : (users.map (fun pr => pr.2.username)).Nodup)
    (htrim : strip username = username) (hu : username ≠ "")
    (hp : password ≠ "") :
    (login chk users username password = .redirect "index" ↔
      ∃ pr ∈ users, pr.2.username = username ∧
        chk pr.2.password_hash password = true) ∧
    (login chk users username password ≠ .redirect "index" →
      login chk users username password =
        .error "Invalid username or password") := by
  unfold login
  rw [htrim, if_neg (not_or.mpr ⟨hu, hp⟩)]
  cases hfind : users.find? (fun pr => pr.2.username == username) with
  | none =>
    have hnone := List.find?_eq_none.mp hfind
    refine ⟨⟨fun hc => absurd hc (by simp), ?_⟩, fun _ => rfl⟩
    rintro ⟨pr, hmem, hname, hchk⟩
    exact absurd (beq_iff_eq.mpr hname) (by simpa using hnone pr hmem)
  | some pr =>
    obtain ⟨uid, r⟩ := pr
    dsimp only
    have hmem := List.mem_of_find?_eq_some hfind
    have hname : r.username = username := by
      have := List.find?_some hfind
      simpa using this
    have huid : uid ≠ "" := hids (uid, r) hmem
    by_cases hchk : chk r.password_hash password = true
    · have hcond : (uid != "" && chk r.password_hash password) = true := by
        rw [Bool.and_eq_true]
        exact ⟨bne_iff_ne.mpr huid, hchk⟩
      rw [if_pos hcond]
      exact ⟨⟨fun _ => ⟨(uid, r), hmem, hname, hchk⟩, fun _ => rfl⟩,
        fun hc => absurd rfl hc⟩
    · have hcond : ¬ ((uid != "" && chk r.password_hash password) = true) := by
        rw [Bool.and_eq_true]
        rintro ⟨-, hc⟩
        exact hchk hc
      rw [if_neg hcond]
      refine ⟨⟨fun hc => absurd hc (by simp), ?_⟩, fun _ => rfl⟩
      rintro ⟨pr, hmem2, hname2, hchk2⟩
      have hpr : pr = (uid, r) := by
        apply List.inj_on_of_nodup_map hnames hmem2 hmem
      
        rw [hname2, hname]
      rw [hpr] at hchk2
      exact absurd hchk2 hchk

theorem login_spec_witness :
    login demoCheck [("1", ⟨"alice", demoHash "secret1", "t0"⟩)]
      "alice" "secret1" = FormResult.redirect "index" :=
  (login_spec demoCheck [("1", ⟨"alice", demoHash "secret1", "t0"⟩)]
    "alice" "secret1" (by decide) (by decide) (by decide) (by decide)
    (by decide)).1.mpr (by decide)

theorem register_err_unchanged (hashF : String → String) (users : UserStore)
    (u p c now : String) (e : String)
    (he : (register hashF users u p c now).2 = some e) :
    (register hashF users u p c now).1 = users := by
  simp only [register] at he ⊢
  split_ifs at he ⊢
  · rfl
  · rfl
  · rfl
  · rfl
  · rfl

theorem register_ok_eq (hashF : String → String) (users : UserStore)
    (u p c now : String)
    (hkey : ∀ pr ∈ users, pr.1 ≠ Nat.repr (users.length + 1))
    (hok : (register hashF users u p c now).2 = none) :
    (register hashF users u p c now).1 =
      users ++ [(Nat.repr (users.length + 1), ⟨strip u, hashF p, now⟩)] := by
  have hany : users.any
      (fun pr => pr.1 == Nat.repr (users.length + 1)) = false := by
    rw [List.any_eq_false]
    intro pr hpr
    simpa using hkey pr hpr
  simp only [register] at hok ⊢
  split_ifs at hok ⊢
  simp only [dictInsert, hany, Bool.false_eq_true, if_false]

theorem register_ok_conditions (hashF : String → String) (users : UserStore)
    (u p c now : String)
    (hok : (register hashF users u p c now).2 = none) :
    strip u ≠ "" ∧ p ≠ "" ∧ 3 ≤ (strip u).length ∧ 6 ≤ p.length ∧ p = c ∧
      ∀ pr ∈ users, pr.2.username.toLower ≠ (strip u).toLower := by
  simp only [register] at hok
  split_ifs at hok with h1 h2 h3 h4 h5
  · push_neg at h1
    refine ⟨h1.1, h1.2.1, by omega, by omega, not_ne_iff.mp h4, ?_⟩
    intro pr hpr hc
    apply h5
    rw [List.any_eq_true]
    exact ⟨pr, hpr, beq_iff_eq.mpr hc⟩

theorem register_ok_of_valid (hashF : String → String) (users : UserStore)
    (u p c now : String)
    (h1 : strip u ≠ "") (h2 : p ≠ "") (h3 : c ≠ "")
    (h4 : ¬ (strip u).length < 3) (h5 : ¬ p.length < 6) (h6 : p = c)
    (h7 : ∀ pr ∈ users, pr.2.username.toLower ≠ (strip u).toLower) :
    (register hashF users u p c now).2 = none := by
  have hany : users.any
      (fun pr => pr.2.username.toLower == (strip u).toLower) = false := by
    rw [List.any_eq_false]
    intro pr hpr
    simpa using h7 pr hpr
  simp only [register]
  rw [if_neg (by push_neg; exact ⟨h1, h2, h3⟩), if_neg h4, if_neg h5,
    if_neg (not_ne_iff.mpr h6)]
  simp only [hany, Bool.false_eq_true, if_false]

/-- Claim C3: with a whitespace-free username and a store in which the id about to
be assigned is not yet a key (true of every store built by register),
registration fails exactly when a field is empty, the username is shorter
than 3, the password shorter than 6, the confirmation differs, or the
username is already taken case-insensitively; a failing request leaves the
store untouched, and a successful one appends exactly one record whose
stored password is the hash of the submitted password. -/
theorem register_spec (hashF : String → String) (users : UserStore)
    (u p c now : String)
    (htrim : strip u = u)
    (hkey : ∀ pr ∈ users, pr.1 ≠ Nat.repr (users.length + 1)) :
    ((register hashF users u p c now).2.isSome = true ↔
      (u = "" ∨ p = "" ∨ c = "" ∨ u.length < 3 ∨ p.length < 6 ∨ p ≠ c ∨
        ∃ pr ∈ users, pr.2.username.toLower = u.toLower)) ∧
    (∀ e, (register hashF users u p c now).2 = some e →
      (register hashF users u p c now).1 = users) ∧
    ((register hashF users u p c now).2 = none →
      (register hashF users u p c now).1 =
        users ++ [(Nat.repr (users.length + 1), ⟨u, hashF p, now⟩)]) := by
  have hiff : (register hashF users u p c now).2 = none ↔
      ¬(u = "" ∨ p = "" ∨ c = "" ∨ u.length < 3 ∨ p.length < 6 ∨ p ≠ c ∨
        ∃ pr ∈ users, pr.2.username.toLower = u.toLower) := by
    constructor
    · intro hok
      obtain ⟨e1, e2, e3, e4, e5, e6⟩ :=
        register_ok_conditions hashF users u p c now hok
      rw [htrim] at e1 e3 e6
      push_neg
      refine ⟨e1, e2, ?_, by omega, by omega, e5, ?_⟩
      · rw [← e5]
        exact e2
      · intro pr hpr
        exact e6 pr hpr
    · intro hvalid
      push_neg at hvalid
      obtain ⟨v1, v2, v3, v4, v5, v6, v7⟩ := hvalid
      refine register_ok_of_valid hashF users u p c now ?_ v2 v3 ?_
        (by omega) v6 ?_
      · rw [htrim]
        exact v1
      · rw [htrim]
        omega
      · rw [htrim]
        exact v7
  refine ⟨?_, fun e he => register_err_unchanged hashF users u p c now e he, ?_⟩
  · constructor
    · intro hs
      by_contra hno
      rw [hiff.mpr hno] at hs
      simp at hs
    · intro hd
      cases hopt : (register hashF users u p c now).2 with
      | some e => rfl
      | none => exact absurd hd (hiff.mp hopt)
  · intro hok
    have := register_ok_eq hashF users u p c now hkey hok
    rwa [htrim] at this

theorem register_spec_witness :
    (register demoHash [] "alice" "secret1" "secret1" "t0").1 =
      [("1", ⟨"alice", demoHash "secret1", "t0"⟩)] :=
  (register_spec demoHash [] "alice" "secret1" "secret1" "t0" (by decide)
    (by decide)).2.2 (by decide)

theorem find?_append_of_none (p : String × UserRecord → Bool)
    (l₁ l₂ : UserStore) (h : l₁.find? p = none) :
    (l₁ ++ l₂).find? p = l₂.find? p := by
  induction l₁ with
  | nil => rfl
  | cons x xs ih =>
    have hx := List.find?_eq_none.mp h x (List.mem_cons_self x xs)
    have hxs : xs.find? p = none :=
      List.find?_eq_none.mpr
        (fun y hy => List.find?_eq_none.mp h y (List.mem_cons_of_mem x hy))
    rw [List.cons_append, List.find?_cons_of_neg _ hx, ih hxs]

/-- Claim C8: after a successful registration on a store in which the id about to
be assigned is fresh, logging in with exactly the registered username and
password succeeds, while logging in with that username and any password
that does not verify against the stored hash fails with the
invalid-credentials error. -/
theorem register_login_roundtrip (hashF : String → String)
    (chk : String → String → Bool) (users : UserStore)
    (username password now : String)
    (htrim : strip username = username)
    (hkey : ∀ pr ∈ users, pr.1 ≠ Nat.repr (users.length + 1))
    (hok : (register hashF users username password password now).2 = none)
    (hchk : chk (hashF password) password = true) :
    login chk (register hashF users username password password now).1
      username password = .redirect "index" ∧
    ∀ q, q ≠ "" → chk (hashF password) q = false →
      login chk (register hashF users username password password now).1
        username q = .error "Invalid username or password" := by
  obtain ⟨e1, e2, e3, e4, e5, e6⟩ :=
    register_ok_conditions hashF users username password password now hok
  rw [htrim] at e1 e6
  have hreg := register_ok_eq hashF users username password password now
    hkey hok
  rw [htrim] at hreg
  have hkeyne : Nat.repr (users.length + 1) ≠ "" :=
    repr_ne_empty (users.length + 1)
  have hfindold : users.find? (fun pr => pr.2.username == username) = none := by
    rw [List.find?_eq_none]
    intro pr hpr hc
    have hcc : pr.2.username = username := by simpa using hc
    exact e6 pr hpr (by rw [hcc])
  have hfind : ((users ++ [(Nat.repr (users.length + 1),
      (⟨username, hashF password, now⟩ : UserRecord))]).find?
      (fun pr => pr.2.username == username)) =
      some (Nat.repr (users.length + 1),
        (⟨username, hashF password, now⟩ : UserRecord)) := by
    rw [find?_append_of_none _ users _ hfindold]
    rw [List.find?_cons_of_pos _ (by simp)]
  constructor
  · unfold login
    rw [htrim, if_neg (not_or.mpr ⟨e1, e2⟩), hreg, hfind]
    dsimp only
    rw [if_pos (by rw [Bool.and_eq_true]
                   exact ⟨bne_iff_ne.mpr hkeyne, hchk⟩)]
  · intro q hq hqchk
    unfold login
    rw [htrim, if_neg (not_or.mpr ⟨e1, hq⟩), hreg, hfind]
    dsimp only
    rw [if_neg (by rw [Bool.and_eq_true]
                   rintro ⟨-, hc⟩
                   rw [hqchk] at hc
                   exact Bool.noConfusion hc)]

theorem register_login_roundtrip_witness :
    login demoCheck
      (register demoHash [] "alice" "secret1" "secret1" "t0").1
      "alice" "secret1" = FormResult.redirect "index" :=
  (register_login_roundtrip demoHash demoCheck [] "alice" "secret1" "t0"
    (by decide) (by decide) (by decide) (by decide)).1

/-- The user stores reachable from the empty store by successful
registrations. -/
inductive ReachableUsers (hashF : String → String) : UserStore → Prop where
  | empty : ReachableUsers hashF []
  | step (us : UserStore) (h : ReachableUsers hashF us) (u p c now : String)
      (hok : (register hashF us u p c now).2 = none) :
      ReachableUsers hashF (register hashF us u p c now).1

theorem keys_fresh (us : UserStore)
    (hmap : us.map Prod.fst =
      (List.range us.length).map (fun i => Nat.repr (i + 1))) :
    ∀ pr ∈ us, pr.1 ≠ Nat.repr (us.length + 1) := by
  intro pr hpr hc
  have h1 : pr.1 ∈ (List.range us.length).map (fun i => Nat.repr (i + 1)) := by
    rw [← hmap]
    exact List.mem_map_of_mem Prod.fst hpr
  obtain ⟨i, hi, hrep⟩ := List.mem_map.mp h1
  have hii : i + 1 = us.length + 1 := repr_injective (by rw [hrep, hc])
  have := List.mem_range.mp hi
  omega

/-- Claim C10: every user store built by successful registrations carries as ids
exactly the decimal strings 1 .. n in insertion order, and a further
successful registration appends exactly one record keyed with the decimal
string of n + 1, the existing records untouched. -/
theorem user_ids_consecutive (hashF : String → String) (us : UserStore)
    (h : ReachableUsers hashF us) :
    us.map Prod.fst =
      (List.range us.length).map (fun i => Nat.repr (i + 1)) ∧
    ∀ u p c now, (register hashF us u p c now).2 = none →
      (register hashF us u p c now).1 =
        us ++ [(Nat.repr (us.length + 1), ⟨strip u, hashF p, now⟩)] := by
  have main : us.map Prod.fst =
      (List.range us.length).map (fun i => Nat.repr (i + 1)) := by
    induction h with
    | empty => simp
    | step us' h' u p c now hok ih =>
      rw [register_ok_eq hashF us' u p c now (keys_fresh us' ih) hok]
      rw [List.map_append, List.length_append, ih]
      simp [List.range_succ]
  exact ⟨main, fun u p c now hok =>
    register_ok_eq hashF us u p c now (keys_fresh us main) hok⟩

theorem user_ids_consecutive_witness :
    ((register demoHash [] "alice" "secret1" "secret1" "t0").1).map
      Prod.fst =
    (List.range
      ((register demoHash [] "alice" "secret1" "secret1" "t0").1).length).map
      (fun i => Nat.repr (i + 1)) :=
  (user_ids_consecutive demoHash _
    (ReachableUsers.step [] ReachableUsers.empty "alice" "secret1" "secret1"
      "t0" (by decide))).1
